import Mathlib

/-!
# autopprof: the trigger-capture-retain loop

A shallow embedding of `autopprof.go`.  The engine (`Config`), the snapshot
directory and the error sink are explicit state; every operating-system call
whose error the source inspects or discards (`os.MkdirAll`, `os.ReadDir`,
`os.Create`, `pprof.WriteHeapProfile`, `os.Remove`, `os.Open`) takes its
outcome from the environment, so that each error branch of the source is a
branch of the model.  The blocking `select` of `Config.Start` is driven by a
list of events, one per loop iteration; an event also tells whether `Stop` is
called while the body of that iteration runs.
-/

namespace Autopprof

/-- An error value (`error` in the source), identified by its message. -/
abbrev Err := String

/-- File contents, as a list of byte values. -/
abbrev Bytes := List Nat

/-- A cancellable context made by `context.WithCancel`; the same identifier
stands for the context and for its cancel function. -/
abbrev Handle := Nat

/-- One entry of the snapshot directory: a file name and the bytes it holds. -/
structure DirEntry where
  name : String
  data : Bytes
  deriving DecidableEq

/-- The snapshot directory, as `os.ReadDir` lists it: sorted by file name. -/
abbrev FS := List DirEntry

/-- The struct `Config`.  `Check` is not a field here: its result is read
from the environment on each tick.  `ErrorLog` records whether the callback
is non-nil; the errors it is handed are collected in `State.log`.  `Interval`
is in nanoseconds. -/
structure Config where
  Interval : Int
  Directory : String
  ErrorLog : Bool
  MaxRecords : Int
  records : Int
  ctx : Option Handle
  cancel : Option Handle
  deriving DecidableEq

/-- The engine together with what it acts upon: the directory, the errors
handed to `ErrorLog` so far (oldest first), the handles whose cancel function
has been called, and the number of times `cleanup` has been invoked. -/
structure State where
  c : Config
  fs : FS
  log : List Err
  cancelled : List Handle
  sweeps : Nat
  deriving DecidableEq

/-- A computation that either panics or finishes with a value. -/
inductive Res (α : Type) where
  | panic : Res α
  | ok : α → Res α
  deriving DecidableEq

/-- Arithmetic of the Go type `int` (64 bits, two's complement). -/
def wrap64 (x : Int) : Int := (x + 2 ^ 63) % 2 ^ 64 - 2 ^ 63

/-- The name `writeProfile` mints: `fmt.Sprintf("heap_%d.pprof", t)` for the
`int64` value `t` of `time.Now().UnixNano()`. -/
def fname (t : Int) : String := "heap_" ++ toString t ++ ".pprof"

/-- Lexical order of two strings, character by character; on Go strings
(compared byte by byte in UTF-8) this is the order `os.ReadDir` sorts by. -/
def lexLt : List Char → List Char → Bool
  | [], [] => false
  | [], _ :: _ => true
  | _ :: _, [] => false
  | a :: as, b :: bs =>
    if a.toNat < b.toNat then true
    else if a.toNat = b.toNat then lexLt as bs
    else false

/-- The order on file names: `a < b` on Go strings. -/
def nameLt (a b : String) : Bool := lexLt a.toList b.toList

/-- Effect of a successful `os.Create` followed by the writes made to the
file: the entry is put at its place in name order, and an entry that already
has this name is replaced (the file is truncated and rewritten). -/
def osCreate (d : DirEntry) : FS → FS
  | [] => [d]
  | x :: xs =>
    if nameLt d.name x.name then d :: x :: xs
    else if d.name = x.name then d :: xs
    else x :: osCreate d xs

/-- Effect of a successful `os.Remove` of the file `name`. -/
def osRemove (name : String) : FS → FS
  | [] => []
  | x :: xs => if x.name = name then xs else x :: osRemove name xs

/-- What the environment decides during one call of `writeProfile`: the
clock, whether `os.Create` fails, and the bytes `pprof.WriteHeapProfile`
wrote before returning `writeErr`. -/
structure CaptureEnv where
  now : Int
  createErr : Option Err
  written : Bytes
  writeErr : Option Err
  deriving DecidableEq

/-- `Config.writeProfile`: returns the error (if any) and the directory. -/
def writeProfile (fs : FS) (e : CaptureEnv) : Option Err × FS :=
  match e.createErr with
  | some err => (some err, fs)
  | none => (e.writeErr, osCreate ⟨fname e.now, e.written⟩ fs)

/-- The loop `for _, d := range ds[0:k] { _ = os.Remove(...) }`: each entry
is removed in turn, and a removal that fails is passed over. -/
def removeEach (removeFails : String → Bool) : List DirEntry → FS → FS
  | [], fs => fs
  | d :: ds, fs =>
    removeEach removeFails ds (if removeFails d.name then fs else osRemove d.name fs)

/-- `Config.cleanup`.  `readDirErr` is the error of `os.ReadDir`, if it
fails; `removeFails` tells for which names `os.Remove` fails.  The slice
expression `ds[0 : len(ds)-c.MaxRecords]` panics when its upper bound is
negative or exceeds the capacity of `ds`, and a bound past the length but
within the capacity yields nil entries on which `d.Name()` panics: the
function panics whenever the bound is not within `0 .. len(ds)`.  The
subtraction is written without wrap-around: past the guard it can overflow
only for a negative `MaxRecords`, and then the bound is out of range whether
it wraps or not. -/
def cleanup (c : Config) (fs : FS) (readDirErr : Option Err)
    (removeFails : String → Bool) : Res (Option Err × FS) :=
  match readDirErr with
  | some err => .ok (some err, fs)
  | none =>
    let ds := fs
    if (ds.length : Int) < c.MaxRecords then .ok (none, fs)
    else
      let high := (ds.length : Int) - c.MaxRecords
      if high < 0 ∨ (ds.length : Int) < high then .panic
      else .ok (none, removeEach removeFails (ds.take high.toNat) fs)

/-- What the environment decides during one tick of the loop. -/
structure TickEnv where
  check : Bool
  capture : CaptureEnv
  readDirErr : Option Err
  removeFails : String → Bool

/-- `c.ErrorLog(err)` guarded by `c.ErrorLog != nil`. -/
def report (s : State) (err : Err) : State :=
  if s.c.ErrorLog then { s with log := s.log ++ [err] } else s

/-- The body of `case <-time.After(c.Interval):` in `Config.Start`. -/
def tick (s : State) (e : TickEnv) : Res State :=
  if e.check then
    match writeProfile s.fs e.capture with
    | (some err, fs1) => .ok (report { s with fs := fs1 } err)
    | (none, fs1) =>
      let s1 : State := { s with fs := fs1, c := { s.c with records := wrap64 (s.c.records + 1) } }
      if s1.c.records > s1.c.MaxRecords then
        match cleanup s1.c s1.fs e.readDirErr e.removeFails with
        | .panic => .panic
        | .ok (some err, fs2) => .ok (report { s1 with fs := fs2, sweeps := s1.sweeps + 1 } err)
        | .ok (none, fs2) => .ok { s1 with fs := fs2, sweeps := s1.sweeps + 1 }
      else .ok s1
  else .ok s

/-- `Config.Stop`. -/
def Stop (s : State) : State :=
  match s.c.cancel with
  | some h => { s with c := { s.c with ctx := none, cancel := none }, cancelled := h :: s.cancelled }
  | none => s

/-- What happens on one iteration of the loop of `Config.Start`, once its
`select` is entered.  `callerDone` is `<-ctx.Done()`.  `stopped` is
`<-c.ctx.Done()`, which fires because `Stop` was called from elsewhere while
the loop was waiting in `select`.  `tick` is `<-time.After(c.Interval)`.
`tickWithStop` is the same timer case when `c.Stop()` is called while its
body runs: by the `Check` or `ErrorLog` callback, which hold the `*Config`,
or from another goroutine such as the `/stop` handler. -/
inductive Event where
  | callerDone : Event
  | stopped : Event
  | tick : TickEnv → Event
  | tickWithStop : TickEnv → Event

/-- How a call of `Config.Start` stands once the given events are consumed:
still waiting in `select`, returned (with its error, if any), or panicked. -/
inductive Outcome where
  | running : State → Outcome
  | returned : Option Err → State → Outcome
  | panicked : Outcome
  deriving DecidableEq

/-- The `for { select { ... } }` loop of `Config.Start`, with the deferred
`c.Stop()` run on return.  On entry to `select` its channel operands are
evaluated, `c.ctx.Done()` among them: with `c.ctx` nil that call panics.  The
body of a tick reads neither `c.ctx` nor `c.cancel`, so a `Stop` made while
it runs has the same effect as one made just before it. -/
def loop : State → List Event → Outcome
  | s, [] => if s.c.ctx.isNone then .panicked else .running s
  | s, ev :: rest =>
    if s.c.ctx.isNone then .panicked
    else
      match ev with
      | .callerDone => .returned none (Stop s)
      | .stopped => .returned none (Stop (Stop s))
      | .tick e =>
        match tick s e with
        | .panic => .panicked
        | .ok s1 => loop s1 rest
      | .tickWithStop e =>
        match tick (Stop s) e with
        | .panic => .panicked
        | .ok s1 => loop s1 rest

/-- `Config.Start`.  `mkdirErr` is the error of `os.MkdirAll`, if it fails;
`h` is the context `context.WithCancel` returns. -/
def Start (s : State) (mkdirErr : Option Err) (h : Handle) (evs : List Event) : Outcome :=
  if s.c.cancel.isSome then .returned none s
  else
    match mkdirErr with
    | some err => .returned (some err) s
    | none => loop { s with c := { s.c with ctx := some h, cancel := some h } } evs

/-- The ticks of a running loop, one after the other. -/
def ticks : State → List TickEnv → Res State
  | s, [] => .ok s
  | s, e :: es =>
    match tick s e with
    | .panic => .panic
    | .ok s1 => ticks s1 es

/-- The body of an HTTP response. -/
inductive Body where
  | text : String → Body
  | raw : Bytes → Body
  deriving DecidableEq

/-- An HTTP response: status code, the headers the handler sets, body. -/
structure Response where
  status : Nat
  headers : List (String × String)
  body : Body
  deriving DecidableEq

/-- `http.Error(w, msg, code)`. -/
def httpError (hdrs : List (String × String)) (msg : String) (code : Nat) : Response :=
  { status := code,
    headers := hdrs ++ [("Content-Type", "text/plain; charset=utf-8")],
    body := .text (msg ++ "\n") }

/-- The last element of a listing (`ds[len(ds)-1]`). -/
def lastEntry : List DirEntry → Option DirEntry
  | [] => none
  | [d] => some d
  | _ :: d :: ds => lastEntry (d :: ds)

/-- The `case "/latest":` branch of `Config.Handler`.  `readDirErr` and
`openErr` are the errors of `os.ReadDir` and `os.Open`, if they fail. -/
def Handler_latest (fs : FS) (readDirErr openErr : Option Err) : Response :=
  let hdrs := [("X-Content-Type-Options", "nosniff")]
  match readDirErr with
  | some err => httpError hdrs err 500
  | none =>
    match lastEntry fs with
    | none => httpError hdrs "no profiles" 404
    | some prof =>
      match openErr with
      | some err => httpError hdrs err 500
      | none =>
        { status := 200,
          headers := hdrs ++ [("Content-Type", "application/octet-stream"),
            ("Content-Disposition", "attachment; filename=\"" ++ prof.name ++ "\"")],
          body := .raw prof.data }

/-- The last `n` elements of a list, in order (all of it when it has fewer). -/
def lastN {α : Type} (n : Nat) (l : List α) : List α := l.drop (l.length - n)

/-- A tick on which `writeProfile` creates its file: the check is true and
`os.Create` succeeds. -/
def captures (e : TickEnv) : Bool := e.check && e.capture.createErr.isNone

/-- The files created during the given ticks, in capture order. -/
def captured (es : List TickEnv) : List DirEntry :=
  (es.filter captures).map (fun e => ⟨fname e.capture.now, e.capture.written⟩)

/-- The clock readings of the ticks that create a file, in capture order. -/
def stamps (es : List TickEnv) : List Int :=
  (es.filter captures).map (fun e => e.capture.now)

/-- A tick without a fault past file creation: `writeProfile` either fails
at `os.Create` or succeeds, and in the sweep `os.ReadDir` and every
`os.Remove` succeed. -/
def Clean (e : TickEnv) : Prop :=
  (e.capture.createErr = none → e.capture.writeErr = none) ∧
  e.readDirErr = none ∧ ∀ n, e.removeFails n = false

/-- The listing is in strict name order, as `os.ReadDir` returns it. -/
def Sorted (fs : FS) : Prop := fs.Pairwise (fun a b => nameLt a.name b.name = true)

/-- The check `MemoryLimit(limit)` returns, given the `HeapAlloc` reading of
`runtime.ReadMemStats` (both `uint64`): `memStats.HeapAlloc > limit`. -/
def MemoryLimit (limit heapAlloc : Nat) : Bool := decide (heapAlloc > limit)

/-- The lifecycle fields are set and cleared together: the context is set
only while the cancellation handle is. -/
def WF (s : State) : Prop := s.c.cancel = none → s.c.ctx = none

/-- A property of the state an outcome carries, if it carries one. -/
def Outcome.All (P : State → Prop) : Outcome → Prop
  | .running s => P s
  | .returned _ s => P s
  | .panicked => True

/-! ## Concrete inputs -/

/-- A `Config` as a caller builds it: the unexported fields are zero. -/
def newConfig (maxRecords : Int) : Config :=
  { Interval := 1000000000, Directory := "./profiles", ErrorLog := true,
    MaxRecords := maxRecords, records := 0, ctx := none, cancel := none }

/-- A fresh engine on an empty directory. -/
def newState (maxRecords : Int) : State :=
  { c := newConfig maxRecords, fs := [], log := [], cancelled := [], sweeps := 0 }

/-- A tick on which the check is true and nothing fails; the capture is
made at clock reading `t` and writes the bytes `b`. -/
def goodTick (t : Int) (b : Bytes) : TickEnv :=
  { check := true,
    capture := { now := t, createErr := none, written := b, writeErr := none },
    readDirErr := none,
    removeFails := fun _ => false }

/-- A tick on which the check is false. -/
def quietTick : TickEnv :=
  { check := false,
    capture := { now := 1700000000000000000, createErr := none, written := [], writeErr := none },
    readDirErr := none,
    removeFails := fun _ => false }

/-- A tick on which the check is true, `os.Create` succeeds and
`pprof.WriteHeapProfile` then fails. -/
def writeFailTick (t : Int) : TickEnv :=
  { check := true,
    capture := { now := t, createErr := none, written := [], writeErr := some "no space left on device" },
    readDirErr := none,
    removeFails := fun _ => false }

/-- A tick on which the check is true and the capture succeeds, but
`os.ReadDir` fails if a sweep is run. -/
def listFailTick (t : Int) (b : Bytes) : TickEnv :=
  { check := true,
    capture := { now := t, createErr := none, written := b, writeErr := none },
    readDirErr := some "too many open files",
    removeFails := fun _ => false }

/-- A tick on which the check is true and the capture succeeds, but every
`os.Remove` fails if a sweep is run. -/
def removeFailTick (t : Int) (b : Bytes) : TickEnv :=
  { check := true,
    capture := { now := t, createErr := none, written := b, writeErr := none },
    readDirErr := none,
    removeFails := fun _ => true }

/-! ## Decimal printing and the order of file names -/

theorem toDigitsCore_fuel (b : Nat) (hb : 2 ≤ b) :
    ∀ (f g n : Nat) (ds : List Char), n < f → n < g →
      Nat.toDigitsCore b f n ds = Nat.toDigitsCore b g n ds := by
  intro f
  induction f with
  | zero => intro g n ds hf; omega
  | succ f ih =>
    intro g n ds hf hg
    cases g with
    | zero => omega
    | succ g =>
      simp only [Nat.toDigitsCore]
      by_cases h0 : n / b = 0
      · simp [h0]
      · simp only [h0, if_false]
        have hlt : n / b < n := Nat.div_lt_self (by
          rcases Nat.eq_zero_or_pos n with h | h
          · simp [h] at h0
          · exact h) (by omega)
        exact ih g (n / b) _ (by omega) (by omega)

theorem toDigitsCore_acc (b : Nat) :
    ∀ (f n : Nat) (ds : List Char),
      Nat.toDigitsCore b f n ds = Nat.toDigitsCore b f n [] ++ ds := by
  intro f
  induction f with
  | zero => intro n ds; simp [Nat.toDigitsCore]
  | succ f ih =>
    intro n ds
    simp only [Nat.toDigitsCore]
    by_cases h0 : n / b = 0
    · simp [h0]
    · simp only [h0, if_false]
      rw [ih (n / b) (_ :: ds), ih (n / b) [_]]
      simp

theorem toDigits_small (n : Nat) (h : n < 10) :
    Nat.toDigits 10 n = [Nat.digitChar n] := by
  have h0 : n / 10 = 0 := by omega
  have h1 : n % 10 = n := by omega
  simp [Nat.toDigits, Nat.toDigitsCore, h0, h1]

theorem toDigits_step (n : Nat) (h : 10 ≤ n) :
    Nat.toDigits 10 n = Nat.toDigits 10 (n / 10) ++ [Nat.digitChar (n % 10)] := by
  have h0 : n / 10 ≠ 0 := by omega
  have hl : Nat.toDigits 10 n
      = Nat.toDigitsCore 10 n (n / 10) [Nat.digitChar (n % 10)] := by
    show Nat.toDigitsCore 10 (n + 1) n [] = _
    simp only [Nat.toDigitsCore, h0, if_false]
  have hr : Nat.toDigits 10 (n / 10) = Nat.toDigitsCore 10 (n / 10 + 1) (n / 10) [] := rfl
  rw [hl, hr, toDigitsCore_acc,
    toDigitsCore_fuel 10 (by omega) n (n / 10 + 1) (n / 10) [] (by omega) (by omega)]

theorem lexLt_common (p a b : List Char) : lexLt (p ++ a) (p ++ b) = lexLt a b := by
  induction p with
  | nil => rfl
  | cons c p ih => simp [lexLt, ih]

theorem lexLt_append (s t : List Char) :
    ∀ a b : List Char, a.length = b.length → lexLt a b = true →
      lexLt (a ++ s) (b ++ t) = true := by
  intro a
  induction a with
  | nil =>
    intro b hl h
    cases b with
    | nil => simp [lexLt] at h
    | cons y b => simp at hl
  | cons x a ih =>
    intro b hl h
    cases b with
    | nil => simp at hl
    | cons y b =>
      simp only [List.cons_append, lexLt] at h ⊢
      by_cases h1 : x.toNat < y.toNat
      · simp [h1]
      · simp only [h1, if_false] at h ⊢
        by_cases h2 : x.toNat = y.toNat
        · simp only [h2, if_true] at h ⊢
          exact ih b (by simpa using hl) h
        · simp [h2] at h

theorem digitChar_lt (a b : Nat) (hab : a < b) (hb : b < 10) :
    (Nat.digitChar a).toNat < (Nat.digitChar b).toNat := by
  interval_cases b <;> interval_cases a <;> decide

theorem toDigits_length (k : Nat) :
    ∀ n : Nat, 10 ^ k ≤ n → n < 10 ^ (k + 1) → (Nat.toDigits 10 n).length = k + 1 := by
  induction k with
  | zero =>
    intro n _ h2
    rw [toDigits_small n (by simpa using h2)]
    rfl
  | succ k ih =>
    intro n h1 h2
    have h10 : 10 ≤ n := le_trans (by
      calc 10 = 10 ^ 1 := by norm_num
        _ ≤ 10 ^ (k + 1) := Nat.pow_le_pow_right (by norm_num) (by omega)) h1
    rw [toDigits_step n h10, List.length_append, ih (n / 10)]
    · rfl
    · rw [pow_succ] at h1
      omega
    · rw [pow_succ] at h2
      omega

theorem toDigits_lexLt (k : Nat) :
    ∀ n m : Nat, 10 ^ k ≤ n → n < m → m < 10 ^ (k + 1) →
      lexLt (Nat.toDigits 10 n) (Nat.toDigits 10 m) = true := by
  induction k with
  | zero =>
    intro n m _ hnm h2
    have hm : m < 10 := by simpa using h2
    rw [toDigits_small n (by omega), toDigits_small m hm]
    simp [lexLt, digitChar_lt n m hnm hm]
  | succ k ih =>
    intro n m h1 hnm h2
    have hp : 10 ≤ 10 ^ (k + 1) := by
      calc 10 = 10 ^ 1 := by norm_num
        _ ≤ 10 ^ (k + 1) := Nat.pow_le_pow_right (by norm_num) (by omega)
    rw [pow_succ] at h1 h2
    rw [toDigits_step n (by omega), toDigits_step m (by omega)]
    rcases Nat.lt_or_ge (n / 10) (m / 10) with hlt | hge
    · apply lexLt_append
      · rw [toDigits_length k (n / 10) (by omega) (by omega),
          toDigits_length k (m / 10) (by omega) (by omega)]
      · exact ih (n / 10) (m / 10) (by omega) hlt (by omega)
    · have heq : n / 10 = m / 10 := by omega
      rw [heq, lexLt_common]
      simp [lexLt, digitChar_lt (n % 10) (m % 10) (by omega) (by omega)]

theorem fname_toList (n : Nat) :
    (fname (n : Int)).toList = "heap_".toList ++ (Nat.toDigits 10 n ++ ".pprof".toList) := by
  show (("heap_" ++ toString n) ++ ".pprof").data = _
  rw [String.data_append, String.data_append, List.append_assoc]
  rfl

theorem fname_lt_of_width (k n m : Nat) (h1 : 10 ^ k ≤ n) (hnm : n < m)
    (h2 : m < 10 ^ (k + 1)) : nameLt (fname (n : Int)) (fname (m : Int)) = true := by
  unfold nameLt
  rw [fname_toList, fname_toList, lexLt_common]
  apply lexLt_append
  · rw [toDigits_length k n h1 (by omega), toDigits_length k m (by omega) h2]
  · exact toDigits_lexLt k n m h1 hnm h2

theorem lexLt_iff_lex : ∀ a b : List Char, lexLt a b = true ↔ a < b := by
  intro a
  induction a with
  | nil =>
    intro b
    cases b with
    | nil => simp [lexLt]
    | cons y b => simp [lexLt, List.nil_lt_cons]
  | cons x a ih =>
    intro b
    cases b with
    | nil => simp [lexLt]
    | cons y b =>
      have hxy : x.toNat < y.toNat ↔ x < y := by
        rw [Char.lt_iff_val_lt_val]; exact Iff.rfl
      simp only [lexLt]
      constructor
      · intro h
        by_cases h1 : x.toNat < y.toNat
        · exact List.Lex.rel (hxy.mp h1)
        · simp only [h1, if_false] at h
          by_cases h2 : x.toNat = y.toNat
          · simp only [h2, if_true] at h
            have hc : x = y := Char.ext (UInt32.ext h2)
            subst hc
            exact List.Lex.cons ((ih b).mp h)
          · simp [h2] at h
      · intro h
        cases h with
        | rel hr => simp [hxy.mpr hr]
        | cons hl => simp [(ih b).mpr hl]

/-- The order `nameLt` is the order `<` of strings. -/
theorem nameLt_iff (a b : String) : nameLt a b = true ↔ a < b := by
  rw [String.lt_iff_toList_lt]
  exact lexLt_iff_lex a.toList b.toList

theorem toString_length_natCast (n : Nat) :
    (toString (n : Int)).length = (Nat.toDigits 10 n).length := rfl

theorem fname_lt_nat (n m : Nat) (hnm : n < m)
    (hw : (Nat.toDigits 10 n).length = (Nat.toDigits 10 m).length) :
    nameLt (fname (n : Int)) (fname (m : Int)) = true := by
  have hm0 : m ≠ 0 := by omega
  have hm1 := Nat.pow_log_le_self 10 hm0
  have hm2 := Nat.lt_pow_succ_log_self (by norm_num : 1 < 10) m
  have hlm := toDigits_length (Nat.log 10 m) m hm1 hm2
  rcases Nat.eq_zero_or_pos n with hn | hn
  · subst hn
    rw [toDigits_small 0 (by norm_num), hlm] at hw
    have hk : Nat.log 10 m = 0 := by simpa using hw.symm
    rw [hk] at hm2
    have hm : m < 10 := by simpa using hm2
    unfold nameLt
    rw [fname_toList, fname_toList, lexLt_common, toDigits_small 0 (by norm_num),
      toDigits_small m hm]
    simp [lexLt, digitChar_lt 0 m hnm hm]
  · have hn1 := Nat.pow_log_le_self 10 (by omega : n ≠ 0)
    have hn2 := Nat.lt_pow_succ_log_self (by norm_num : 1 < 10) n
    rw [toDigits_length (Nat.log 10 n) n hn1 hn2, hlm] at hw
    have hk : Nat.log 10 n = Nat.log 10 m := by omega
    rw [← hk] at hm2
    exact fname_lt_of_width (Nat.log 10 n) n m hn1 hnm hm2

/-! ## The engine: helper lemmas -/

theorem removeEach_take (rm : String → Bool) :
    ∀ (pre post : List DirEntry), (∀ d ∈ pre, rm d.name = false) →
      removeEach rm pre (pre ++ post) = post := by
  intro pre
  induction pre with
  | nil => intro post _; rfl
  | cons d pre ih =>
    intro post h
    have hd : rm d.name = false := h d (by simp)
    simp only [removeEach, hd, List.cons_append, osRemove]
    simpa using ih post (fun x hx => h x (by simp [hx]))

theorem cleanup_ok (c : Config) (fs : FS) (rd : Option Err) (rm : String → Bool)
    (hN : 0 ≤ c.MaxRecords) : ∃ r, cleanup c fs rd rm = .ok r := by
  unfold cleanup
  cases rd with
  | some err => exact ⟨_, rfl⟩
  | none =>
    by_cases h1 : (fs.length : Int) < c.MaxRecords
    · simp [h1]
    · have h2 : ¬ ((fs.length : Int) - c.MaxRecords < 0 ∨
          (fs.length : Int) < (fs.length : Int) - c.MaxRecords) := by omega
      simp only [h1, if_false]
      rw [if_neg h2]
      exact ⟨_, rfl⟩

theorem report_c (s : State) (err : Err) : (report s err).c = s.c := by
  unfold report; split <;> rfl

theorem report_fs (s : State) (err : Err) : (report s err).fs = s.fs := by
  unfold report; split <;> rfl

theorem report_sweeps (s : State) (err : Err) : (report s err).sweeps = s.sweeps := by
  unfold report; split <;> rfl

/-- With `MaxRecords ≥ 0` a tick never panics, and it leaves every field of
the engine but `records` as it was. -/
theorem tick_ok (s : State) (e : TickEnv) (hN : 0 ≤ s.c.MaxRecords) :
    ∃ s1, tick s e = .ok s1 ∧ s1.c.MaxRecords = s.c.MaxRecords ∧
      s1.c.cancel = s.c.cancel ∧ s1.c.ctx = s.c.ctx := by
  unfold tick
  by_cases hc : e.check = true
  · simp only [hc, if_true]
    rcases hw : writeProfile s.fs e.capture with ⟨oerr, fs1⟩
    cases oerr with
    | some err => exact ⟨_, rfl, by simp [report_c]⟩
    | none =>
      simp only
      split
      · obtain ⟨⟨oe, fs2⟩, hr⟩ := cleanup_ok
          { s.c with records := wrap64 (s.c.records + 1) } fs1 e.readDirErr e.removeFails hN
        rw [hr]
        cases oe with
        | some err => exact ⟨_, rfl, by simp [report_c]⟩
        | none => exact ⟨_, rfl, rfl, rfl, rfl⟩
      · exact ⟨_, rfl, rfl, rfl, rfl⟩
  · simp only [hc]
    exact ⟨_, rfl, rfl, rfl, rfl⟩

theorem Stop_idle (s : State) (hwf : WF s) :
    (Stop s).c.cancel = none ∧ (Stop s).c.ctx = none := by
  unfold Stop
  cases h : s.c.cancel with
  | none => exact ⟨h, hwf h⟩
  | some x => exact ⟨rfl, rfl⟩

theorem Stop_of_idle (s : State) (h : s.c.cancel = none) : Stop s = s := by
  unfold Stop; rw [h]

theorem tick_fields (s : State) (e : TickEnv) (s1 : State) (h : tick s e = .ok s1) :
    s1.c.cancel = s.c.cancel ∧ s1.c.ctx = s.c.ctx ∧ s1.c.MaxRecords = s.c.MaxRecords := by
  unfold tick at h
  by_cases hc : e.check = true
  · simp only [hc, if_true] at h
    rcases hw : writeProfile s.fs e.capture with ⟨oerr, fs1⟩
    rw [hw] at h
    cases oerr with
    | some err =>
      simp only [Res.ok.injEq] at h
      subst h
      simp [report_c]
    | none =>
      simp only at h
      by_cases hr : wrap64 (s.c.records + 1) > s.c.MaxRecords
      · rw [if_pos hr] at h
        cases hcl : cleanup { s.c with records := wrap64 (s.c.records + 1) } fs1 e.readDirErr
            e.removeFails with
        | panic => rw [hcl] at h; simp at h
        | ok r =>
          rcases r with ⟨oe, fs2⟩
          rw [hcl] at h
          cases oe with
          | some err =>
            simp only [Res.ok.injEq] at h
            subst h
            simp [report_c]
          | none =>
            simp only [Res.ok.injEq] at h
            subst h
            exact ⟨rfl, rfl, rfl⟩
      · rw [if_neg hr] at h
        simp only [Res.ok.injEq] at h
        subst h
        exact ⟨rfl, rfl, rfl⟩
  · simp only [hc, Bool.false_eq_true, if_false, Res.ok.injEq] at h
    subst h
    exact ⟨rfl, rfl, rfl⟩

theorem loop_ctx_none (s : State) (evs : List Event) (h : s.c.ctx = none) :
    loop s evs = .panicked := by
  cases evs <;> simp [loop, h]

theorem loop_nil (s : State) (h : s.c.ctx ≠ none) : loop s [] = .running s := by
  cases hx : s.c.ctx with
  | none => exact absurd hx h
  | some x => simp [loop, hx]

theorem loop_tick (s s1 : State) (e : TickEnv) (rest : List Event) (ht : tick s e = .ok s1) :
    loop s (.tick e :: rest) = loop s1 rest := by
  cases hx : s.c.ctx with
  | none =>
    rw [loop_ctx_none s _ hx, loop_ctx_none s1 _ (by rw [(tick_fields s e s1 ht).2.1]; exact hx)]
  | some x => simp [loop, hx, ht]

theorem loop_ticks_cancel (ev : Event) (rest : List Event)
    (hev : ev = .callerDone ∨ ev = .stopped) :
    ∀ (es : List TickEnv) (s : State), WF s → s.c.ctx ≠ none → 0 ≤ s.c.MaxRecords →
      ∃ s1, loop s (es.map Event.tick ++ ev :: rest) = .returned none s1 ∧
        s1.c.cancel = none ∧ s1.c.ctx = none := by
  intro es
  induction es with
  | nil =>
    intro s hwf hctx _
    have h1 := Stop_idle s hwf
    cases hx : s.c.ctx with
    | none => exact absurd hx hctx
    | some x =>
      rcases hev with h | h
      · subst h
        exact ⟨Stop s, by simp [loop, hx], h1⟩
      · subst h
        refine ⟨Stop (Stop s), by simp [loop, hx], ?_⟩
        rw [Stop_of_idle (Stop s) h1.1]
        exact h1
  | cons e es ih =>
    intro s hwf hctx hN
    obtain ⟨s1, h1, hM, hc, hx⟩ := tick_ok s e hN
    simp only [List.map_cons, List.cons_append]
    rw [loop_tick s s1 e _ h1]
    exact ih s1 (by unfold WF; rw [hc, hx]; exact hwf) (by rw [hx]; exact hctx)
      (by rw [hM]; exact hN)

theorem loop_WF : ∀ (evs : List Event) (s : State), WF s → (loop s evs).All WF := by
  intro evs
  induction evs with
  | nil =>
    intro s h
    cases hx : s.c.ctx with
    | none => rw [loop_ctx_none s _ hx]; trivial
    | some x => rw [loop_nil s (by rw [hx]; simp)]; exact h
  | cons ev evs ih =>
    intro s h
    have hS : ∀ x : State, WF x → WF (Stop x) := by
      intro x hx _
      exact (Stop_idle x hx).2
    have hT : ∀ (x x1 : State) (e : TickEnv), WF x → tick x e = .ok x1 → WF x1 := by
      intro x x1 e hx ht
      obtain ⟨h1, h2, _⟩ := tick_fields x e x1 ht
      unfold WF
      rw [h1, h2]
      exact hx
    cases hx : s.c.ctx with
    | none => rw [loop_ctx_none s _ hx]; trivial
    | some x =>
      cases ev with
      | callerDone =>
        have : loop s (.callerDone :: evs) = .returned none (Stop s) := by simp [loop, hx]
        rw [this]
        exact hS s h
      | stopped =>
        have : loop s (.stopped :: evs) = .returned none (Stop (Stop s)) := by simp [loop, hx]
        rw [this]
        exact hS _ (hS s h)
      | tick e =>
        cases ht : tick s e with
        | panic =>
          have : loop s (.tick e :: evs) = .panicked := by simp [loop, hx, ht]
          rw [this]
          trivial
        | ok s1 =>
          rw [loop_tick s s1 e evs ht]
          exact ih s1 (hT s s1 e h ht)
      | tickWithStop e =>
        cases ht : tick (Stop s) e with
        | panic =>
          have : loop s (.tickWithStop e :: evs) = .panicked := by simp [loop, hx, ht]
          rw [this]
          trivial
        | ok s1 =>
          have : loop s (.tickWithStop e :: evs) = loop s1 evs := by simp [loop, hx, ht]
          rw [this]
          exact ih s1 (hT _ s1 e (hS s h) ht)

/-- The lifecycle invariant `WF` holds of every state `Config.Start` leaves. -/
theorem Start_WF (s : State) (mk : Option Err) (h : Handle) (evs : List Event) (hwf : WF s) :
    (Start s mk h evs).All WF := by
  unfold Start
  by_cases hc : s.c.cancel.isSome = true
  · rw [if_pos hc]
    exact hwf
  · rw [if_neg hc]
    cases mk with
    | some err => exact hwf
    | none =>
      apply loop_WF
      intro hc
      simp at hc

/-! ## Retention over a run of ticks: helper lemmas -/

theorem lastN_length_le {α : Type} (n : Nat) (l : List α) : (lastN n l).length ≤ n := by
  unfold lastN
  rw [List.length_drop]
  omega

theorem lastN_lastN_append {α : Type} (n : Nat) (a b : List α) :
    lastN n (lastN n a ++ b) = lastN n (a ++ b) := by
  unfold lastN
  rcases Nat.le_total a.length n with h | h
  · have h0 : a.length - n = 0 := by omega
    simp [h0]
  · simp only [List.length_append, List.length_drop, List.drop_append_eq_append_drop,
      List.drop_drop]
    congr 2 <;> omega

theorem mem_lastN {α : Type} (n : Nat) (l : List α) (x : α) (h : x ∈ lastN n l) : x ∈ l :=
  List.mem_of_mem_drop h

theorem osCreate_append (d : DirEntry) :
    ∀ fs : FS, (∀ x ∈ fs, nameLt x.name d.name = true) → osCreate d fs = fs ++ [d] := by
  intro fs
  induction fs with
  | nil => intro _; rfl
  | cons x xs ih =>
    intro h
    have hx : x.name < d.name := (nameLt_iff _ _).mp (h x (by simp))
    have h1 : nameLt d.name x.name = false := by
      cases hn : nameLt d.name x.name with
      | false => rfl
      | true => exact absurd ((nameLt_iff _ _).mp hn) (lt_asymm hx)
    have h2 : d.name ≠ x.name := fun he => by
      rw [he] at hx
      exact lt_irrefl _ hx
    simp only [osCreate, h1, h2, if_false, Bool.false_eq_true, List.cons_append]
    rw [ih (fun y hy => h y (by simp [hy]))]

theorem cleanup_clean (c : Config) (fs : FS) (rm : String → Bool) (hN : 0 ≤ c.MaxRecords)
    (hrm : ∀ n, rm n = false) :
    cleanup c fs none rm = .ok (none, lastN c.MaxRecords.toNat fs) := by
  unfold cleanup lastN
  by_cases h1 : (fs.length : Int) < c.MaxRecords
  · have h0 : fs.length - c.MaxRecords.toNat = 0 := by omega
    simp [h1, h0]
  · have h2 : ¬ ((fs.length : Int) - c.MaxRecords < 0 ∨
        (fs.length : Int) < (fs.length : Int) - c.MaxRecords) := by omega
    simp only [h1, if_false]
    rw [if_neg h2]
    have hk : ((fs.length : Int) - c.MaxRecords).toNat = fs.length - c.MaxRecords.toNat := by
      omega
    rw [hk]
    have := removeEach_take rm (fs.take (fs.length - c.MaxRecords.toNat))
      (fs.drop (fs.length - c.MaxRecords.toNat)) (fun d _ => hrm d.name)
    rw [List.take_append_drop] at this
    rw [this]

theorem ticks_snoc (e : TickEnv) : ∀ (es : List TickEnv) (s : State),
    ticks s (es ++ [e]) = match ticks s es with
      | .panic => .panic
      | .ok t => tick t e := by
  intro es
  induction es with
  | nil =>
    intro s
    simp only [List.nil_append, ticks]
    cases tick s e <;> rfl
  | cons x es ih =>
    intro s
    simp only [List.cons_append, ticks]
    cases tick s x with
    | panic => rfl
    | ok s1 => exact ih s1

theorem captured_snoc (es : List TickEnv) (e : TickEnv) :
    captured (es ++ [e]) = captured es ++
      (if captures e = true then [⟨fname e.capture.now, e.capture.written⟩] else []) := by
  unfold captured
  by_cases h : captures e = true <;> simp [List.filter_append, List.filter_cons, h]

theorem stamps_snoc (es : List TickEnv) (e : TickEnv) :
    stamps (es ++ [e]) = stamps es ++ (if captures e = true then [e.capture.now] else []) := by
  unfold stamps
  by_cases h : captures e = true <;> simp [List.filter_append, List.filter_cons, h]

theorem captured_names (es : List TickEnv) :
    (captured es).map DirEntry.name = (stamps es).map fname := by
  unfold captured stamps
  simp [List.map_map, Function.comp_def]

theorem wrap64_id (x : Int) (h1 : -2 ^ 63 ≤ x) (h2 : x < 2 ^ 63) : wrap64 x = x := by
  unfold wrap64
  omega

theorem tick_skip (t : State) (e : TickEnv) (h : e.check = false) : tick t e = .ok t := by
  simp [tick, h]

theorem tick_createFail (t : State) (e : TickEnv) (err : Err) (h : e.check = true)
    (hc : e.capture.createErr = some err) : tick t e = .ok (report t err) := by
  simp [tick, h, writeProfile, hc]

theorem tick_capture (t : State) (e : TickEnv) (h : e.check = true)
    (hc : e.capture.createErr = none) (hcl : Clean e) (hN : 0 ≤ t.c.MaxRecords)
    (hlt : ∀ x ∈ t.fs, nameLt x.name (fname e.capture.now) = true) :
    tick t e = .ok
      (if wrap64 (t.c.records + 1) > t.c.MaxRecords then
        { t with
          c := { t.c with records := wrap64 (t.c.records + 1) },
          fs := lastN t.c.MaxRecords.toNat (t.fs ++ [⟨fname e.capture.now, e.capture.written⟩]),
          sweeps := t.sweeps + 1 }
      else
        { t with
          c := { t.c with records := wrap64 (t.c.records + 1) },
          fs := t.fs ++ [⟨fname e.capture.now, e.capture.written⟩] }) := by
  obtain ⟨hw, hrd, hrm⟩ := hcl
  have hcr := osCreate_append ⟨fname e.capture.now, e.capture.written⟩ t.fs hlt
  unfold tick
  simp only [h, if_true, writeProfile, hc, hw hc, hcr]
  by_cases hr : wrap64 (t.c.records + 1) > t.c.MaxRecords
  · rw [if_pos hr, if_pos hr, hrd,
      cleanup_clean { t.c with records := wrap64 (t.c.records + 1) } _ _ hN hrm]
  · rw [if_neg hr, if_neg hr]

/-- The state a fault-free run of ticks reaches: until the first sweep the
directory holds everything, from then on the last `MaxRecords` entries. -/
theorem ticks_invariant (s : State) (hN : 0 ≤ s.c.MaxRecords) (hlo : -2 ^ 63 ≤ s.c.records) :
    ∀ es : List TickEnv,
      s.c.records + es.length < 2 ^ 63 →
      (∀ e ∈ es, e.check = true → Clean e) →
      (captured es).Pairwise (fun a b => nameLt a.name b.name = true) →
      (∀ d ∈ s.fs, ∀ x ∈ captured es, nameLt d.name x.name = true) →
      ∃ t, ticks s es = .ok t ∧ t.c.MaxRecords = s.c.MaxRecords ∧
        s.c.records ≤ t.c.records ∧ t.c.records ≤ s.c.records + es.length ∧
        s.sweeps ≤ t.sweeps ∧
        (t.sweeps = s.sweeps → t.fs = s.fs ++ captured es) ∧
        (s.sweeps < t.sweeps → s.c.MaxRecords < t.c.records ∧
          t.fs = lastN s.c.MaxRecords.toNat (s.fs ++ captured es)) := by
  intro es
  induction es using List.reverseRecOn with
  | nil =>
    intro _ _ _ _
    refine ⟨s, rfl, rfl, le_refl _, by simp, le_refl _, ?_, ?_⟩
    · intro _; simp [captured]
    · intro h; omega
  | append_singleton es e ih =>
    intro hhi hclean hpw hold
    rw [captured_snoc] at hpw hold
    have hlen : (es ++ [e]).length = es.length + 1 := by simp
    rw [hlen] at hhi
    push_cast at hhi
    obtain ⟨t, ht, hM, hr1, hr2, hsw, hA, hB⟩ := ih (by omega)
      (fun x hx => hclean x (by simp [hx]))
      (List.Pairwise.sublist (List.sublist_append_left _ _) hpw)
      (fun d hd x hx => hold d hd x (by simp [hx]))
    have hsub : ∀ x ∈ t.fs, x ∈ s.fs ++ captured es := by
      intro x hx
      rcases Nat.eq_or_lt_of_le hsw with h | h
      · rw [hA h.symm] at hx; exact hx
      · rw [(hB h).2] at hx; exact mem_lastN _ _ _ hx
    rw [ticks_snoc, ht, hlen, captured_snoc]
    simp only
    by_cases hchk : e.check = true
    · cases hcr : e.capture.createErr with
      | some err =>
        have hcap : captures e = false := by simp [captures, hchk, hcr]
        rw [tick_createFail t e err hchk hcr]
        refine ⟨_, rfl, ?_⟩
        simp only [report_c, report_fs, report_sweeps, hcap, Bool.false_eq_true, if_false,
          List.append_nil]
        push_cast
        exact ⟨hM, hr1, by omega, hsw, hA, hB⟩
      | none =>
        have hcap : captures e = true := by simp [captures, hchk, hcr]
        simp only [hcap, if_true] at hpw hold ⊢
        have hlt : ∀ x ∈ t.fs, nameLt x.name (fname e.capture.now) = true := by
          intro x hx
          rcases List.mem_append.mp (hsub x hx) with h | h
          · exact hold x h ⟨fname e.capture.now, e.capture.written⟩ (by simp)
          · exact (List.pairwise_append.mp hpw).2.2 x h
              ⟨fname e.capture.now, e.capture.written⟩ (by simp)
        rw [tick_capture t e hchk hcr (hclean e (by simp) hchk) (by rw [hM]; exact hN) hlt,
          wrap64_id (t.c.records + 1) (by omega) (by omega), hM]
        by_cases hr : t.c.records + 1 > s.c.MaxRecords
        · rw [if_pos hr]
          refine ⟨_, rfl, hM, ?_, ?_, ?_, ?_, ?_⟩
          · show s.c.records ≤ t.c.records + 1
            omega
          · show t.c.records + 1 ≤ _
            push_cast
            omega
          · show s.sweeps ≤ t.sweeps + 1
            omega
          · intro h
            have : t.sweeps + 1 = s.sweeps := h
            omega
          · intro _
            refine ⟨hr, ?_⟩
            show lastN _ (t.fs ++ _) = _
            rcases Nat.eq_or_lt_of_le hsw with h | h
            · rw [hA h.symm, List.append_assoc]
            · rw [(hB h).2, lastN_lastN_append, List.append_assoc]
        · rw [if_neg hr]
          refine ⟨_, rfl, hM, ?_, ?_, hsw, ?_, ?_⟩
          · show s.c.records ≤ t.c.records + 1
            omega
          · show t.c.records + 1 ≤ _
            push_cast
            omega
          · intro h
            show t.fs ++ _ = _
            rw [hA h, List.append_assoc]
          · intro h
            have := (hB h).1
            omega
    · have hchk0 : e.check = false := by simpa using hchk
      have hcap : captures e = false := by simp [captures, hchk0]
      rw [tick_skip t e hchk0]
      refine ⟨t, rfl, hM, hr1, ?_, hsw, ?_, ?_⟩
      · push_cast; omega
      · simpa [hcap] using hA
      · simpa [hcap] using hB

theorem fname_lt_int (k : Nat) (a b : Int) (h1 : 10 ^ k ≤ a) (hab : a < b)
    (h2 : b < 10 ^ (k + 1)) : nameLt (fname a) (fname b) = true := by
  have ha : 0 ≤ a := le_trans (by positivity) h1
  obtain ⟨n, rfl⟩ := Int.eq_ofNat_of_zero_le ha
  obtain ⟨m, rfl⟩ := Int.eq_ofNat_of_zero_le (by omega : 0 ≤ b)
  exact fname_lt_of_width k n m (by exact_mod_cast h1) (by exact_mod_cast hab)
    (by exact_mod_cast h2)

theorem lastEntry_eq : ∀ fs : List DirEntry, lastEntry fs = fs.getLast? := by
  intro fs
  induction fs with
  | nil => rfl
  | cons d ds ih =>
    cases ds with
    | nil => rfl
    | cons x xs => rw [lastEntry, ih, List.getLast?_cons_cons]

theorem loop_of_ticks (rest : List Event) : ∀ (es : List TickEnv) (s t : State),
    ticks s es = .ok t → loop s (es.map Event.tick ++ rest) = loop t rest := by
  intro es
  induction es with
  | nil =>
    intro s t h
    simp only [ticks, Res.ok.injEq] at h
    subst h
    rfl
  | cons e es ih =>
    intro s t h
    simp only [ticks] at h
    simp only [List.map_cons, List.cons_append]
    cases ht : tick s e with
    | panic => rw [ht] at h; simp at h
    | ok s1 =>
      rw [ht] at h
      rw [loop_tick s s1 e _ ht]
      exact ih s1 t h

theorem nameLt_irrefl (a : String) : nameLt a a = false := by
  cases h : nameLt a a with
  | false => rfl
  | true => exact absurd ((nameLt_iff a a).mp h) (lt_irrefl a)

theorem nameLt_asymm (a b : String) (h : nameLt a b = true) : nameLt b a = false := by
  cases hn : nameLt b a with
  | false => rfl
  | true => exact absurd ((nameLt_iff b a).mp hn) (lt_asymm ((nameLt_iff a b).mp h))

theorem nameLt_trans (a b c : String) (h1 : nameLt a b = true) (h2 : nameLt b c = true) :
    nameLt a c = true :=
  (nameLt_iff a c).mpr (lt_trans ((nameLt_iff a b).mp h1) ((nameLt_iff b c).mp h2))

theorem nameLt_total (a b : String) (h1 : nameLt a b = false) (h2 : a ≠ b) :
    nameLt b a = true := by
  rcases lt_trichotomy a b with h | h | h
  · rw [(nameLt_iff a b).mpr h] at h1
    cases h1
  · exact absurd h h2
  · exact (nameLt_iff b a).mpr h

theorem fname_nameLt_int (t1 t2 : Int) (h0 : 0 ≤ t1) (h : t1 < t2)
    (hw : (toString t1).length = (toString t2).length) :
    nameLt (fname t1) (fname t2) = true := by
  obtain ⟨n, rfl⟩ := Int.eq_ofNat_of_zero_le h0
  obtain ⟨m, rfl⟩ := Int.eq_ofNat_of_zero_le (by omega : 0 ≤ t2)
  rw [toString_length_natCast, toString_length_natCast] at hw
  exact fname_lt_nat n m (by exact_mod_cast h) hw

theorem pairwise_getLast {α : Type} (R : α → α → Prop) :
    ∀ (l : List α) (p : α), l.Pairwise R → l.getLast? = some p →
      ∀ d ∈ l, d = p ∨ R d p := by
  intro l
  induction l with
  | nil => intro p _ h; simp at h
  | cons x xs ih =>
    intro p hpw hl d hd
    cases xs with
    | nil =>
      simp only [List.getLast?_singleton, Option.some.injEq] at hl
      simp only [List.mem_singleton] at hd
      exact Or.inl (hd.trans hl)
    | cons y ys =>
      rw [List.getLast?_cons_cons] at hl
      have hp := List.pairwise_cons.mp hpw
      have hmem : p ∈ y :: ys := List.mem_of_getLast?_eq_some hl
      rcases List.mem_cons.mp hd with h | h
      · subst h
        exact Or.inr (hp.1 p hmem)
      · exact ih p hp.2 hl d h

/-! ## The listing stays in name order -/

theorem mem_osCreate (d : DirEntry) : ∀ (fs : FS) (y : DirEntry),
    y ∈ osCreate d fs → y = d ∨ y ∈ fs := by
  intro fs
  induction fs with
  | nil => intro y hy; simpa [osCreate] using hy
  | cons x xs ih =>
    intro y hy
    simp only [osCreate] at hy
    split at hy
    · rcases List.mem_cons.mp hy with h | h
      · exact Or.inl h
      · exact Or.inr h
    · split at hy
      · rcases List.mem_cons.mp hy with h | h
        · exact Or.inl h
        · exact Or.inr (List.mem_cons_of_mem _ h)
      · rcases List.mem_cons.mp hy with h | h
        · exact Or.inr (by simp [h])
        · rcases ih y h with h1 | h1
          · exact Or.inl h1
          · exact Or.inr (List.mem_cons_of_mem _ h1)

theorem osCreate_sorted (d : DirEntry) : ∀ fs : FS, Sorted fs → Sorted (osCreate d fs) := by
  intro fs
  induction fs with
  | nil => intro _; simp [osCreate, Sorted]
  | cons x xs ih =>
    intro h
    have hp := List.pairwise_cons.mp h
    simp only [osCreate]
    by_cases h1 : nameLt d.name x.name = true
    · rw [if_pos h1]
      refine List.pairwise_cons.mpr ⟨?_, h⟩
      intro y hy
      rcases List.mem_cons.mp hy with hy1 | hy1
      · rw [hy1]; exact h1
      · exact nameLt_trans _ _ _ h1 (hp.1 y hy1)
    · rw [if_neg h1]
      by_cases h2 : d.name = x.name
      · rw [if_pos h2]
        refine List.pairwise_cons.mpr ⟨?_, hp.2⟩
        intro y hy
        rw [h2]
        exact hp.1 y hy
      · rw [if_neg h2]
        have hxd : nameLt x.name d.name = true :=
          nameLt_total _ _ (by simpa using h1) h2
        refine List.pairwise_cons.mpr ⟨?_, ih hp.2⟩
        intro y hy
        rcases mem_osCreate d xs y hy with hy1 | hy1
        · rw [hy1]; exact hxd
        · exact hp.1 y hy1

theorem osRemove_sublist (n : String) : ∀ fs : FS, (osRemove n fs).Sublist fs := by
  intro fs
  induction fs with
  | nil => exact List.Sublist.refl _
  | cons x xs ih =>
    simp only [osRemove]
    split
    · exact List.sublist_cons_self x xs
    · exact List.Sublist.cons₂ x ih

theorem removeEach_sublist (rm : String → Bool) : ∀ (ds : List DirEntry) (fs : FS),
    (removeEach rm ds fs).Sublist fs := by
  intro ds
  induction ds with
  | nil => intro fs; exact List.Sublist.refl _
  | cons d ds ih =>
    intro fs
    simp only [removeEach]
    split
    · exact ih fs
    · exact (ih _).trans (osRemove_sublist d.name fs)

theorem cleanup_sublist (c : Config) (fs fs1 : FS) (rd : Option Err) (rm : String → Bool)
    (oe : Option Err) (h : cleanup c fs rd rm = .ok (oe, fs1)) : fs1.Sublist fs := by
  unfold cleanup at h
  cases rd with
  | some err =>
    simp only [Res.ok.injEq, Prod.mk.injEq] at h
    rw [← h.2]
  | none =>
    simp only at h
    split at h
    · simp only [Res.ok.injEq, Prod.mk.injEq] at h
      rw [← h.2]
    · split at h
      · cases h
      · simp only [Res.ok.injEq, Prod.mk.injEq] at h
        rw [← h.2]
        exact removeEach_sublist _ _ _

/-- Every tick leaves the listing in name order. -/
theorem tick_sorted (s : State) (e : TickEnv) (s1 : State) (h : tick s e = .ok s1)
    (hs : Sorted s.fs) : Sorted s1.fs := by
  unfold tick at h
  by_cases hc : e.check = true
  · simp only [hc, if_true] at h
    have hwp : Sorted (writeProfile s.fs e.capture).2 := by
      unfold writeProfile
      cases e.capture.createErr with
      | some err => exact hs
      | none => exact osCreate_sorted _ _ hs
    rcases hw : writeProfile s.fs e.capture with ⟨oerr, fs1⟩
    rw [hw] at h hwp
    cases oerr with
    | some err =>
      simp only [Res.ok.injEq] at h
      subst h
      rw [report_fs]
      exact hwp
    | none =>
      simp only at h
      by_cases hr : wrap64 (s.c.records + 1) > s.c.MaxRecords
      · rw [if_pos hr] at h
        cases hcl : cleanup { s.c with records := wrap64 (s.c.records + 1) } fs1 e.readDirErr
            e.removeFails with
        | panic => rw [hcl] at h; simp at h
        | ok r =>
          rcases r with ⟨oe, fs2⟩
          have hsub := cleanup_sublist _ _ _ _ _ _ hcl
          rw [hcl] at h
          cases oe with
          | some err =>
            simp only [Res.ok.injEq] at h
            subst h
            rw [report_fs]
            exact List.Pairwise.sublist hsub hwp
          | none =>
            simp only [Res.ok.injEq] at h
            subst h
            exact List.Pairwise.sublist hsub hwp
      · rw [if_neg hr] at h
        simp only [Res.ok.injEq] at h
        subst h
        exact hwp
  · simp only [hc, Bool.false_eq_true, if_false, Res.ok.injEq] at h
    subst h
    exact hs

theorem ticks_sorted : ∀ (es : List TickEnv) (s t : State),
    ticks s es = .ok t → Sorted s.fs → Sorted t.fs := by
  intro es
  induction es with
  | nil =>
    intro s t h hs
    simp only [ticks, Res.ok.injEq] at h
    subst h
    exact hs
  | cons e es ih =>
    intro s t h hs
    simp only [ticks] at h
    cases ht : tick s e with
    | panic => rw [ht] at h; simp at h
    | ok s1 =>
      rw [ht] at h
      exact ih s1 t h (tick_sorted s e s1 ht hs)

/-! ## The store a fault-free run leaves -/

theorem ticks_run (s : State) (es : List TickEnv) (k : Nat)
    (hN : 0 ≤ s.c.MaxRecords)
    (hrec : -2 ^ 63 ≤ s.c.records ∧ s.c.records + es.length < 2 ^ 63)
    (hclean : ∀ e ∈ es, e.check = true → Clean e)
    (hwidth : ∀ t ∈ stamps es, 10 ^ k ≤ t ∧ t < 10 ^ (k + 1))
    (hincr : (stamps es).Pairwise (fun a b => a < b))
    (hold : ∀ d ∈ s.fs, ∀ t ∈ stamps es, nameLt d.name (fname t) = true) :
    ∃ t, ticks s es = .ok t ∧ s.sweeps ≤ t.sweeps ∧
      (t.sweeps = s.sweeps → t.fs = s.fs ++ captured es) ∧
      (s.sweeps < t.sweeps → t.fs = lastN s.c.MaxRecords.toNat (s.fs ++ captured es)) := by
  have hpw : (captured es).Pairwise (fun a b => nameLt a.name b.name = true) := by
    have h1 : ((captured es).map DirEntry.name).Pairwise (fun a b => nameLt a b = true) := by
      rw [captured_names, List.pairwise_map]
      exact List.Pairwise.imp_of_mem (fun {a b} ha hb hab =>
        fname_lt_int k a b (hwidth a ha).1 hab (hwidth b hb).2) hincr
    exact List.pairwise_map.mp h1
  have hold1 : ∀ d ∈ s.fs, ∀ x ∈ captured es, nameLt d.name x.name = true := by
    intro d hd x hx
    have hx1 : x.name ∈ (captured es).map DirEntry.name := List.mem_map_of_mem _ hx
    rw [captured_names] at hx1
    obtain ⟨t, ht, hxt⟩ := List.mem_map.mp hx1
    rw [← hxt]
    exact hold d hd t ht
  obtain ⟨t, ht, _, _, _, hsw, hA, hB⟩ := ticks_invariant s hN hrec.1 es hrec.2 hclean hpw hold1
  exact ⟨t, ht, hsw, hA, fun h => (hB h).2⟩

theorem getLast_lastN {α : Type} (n : Nat) (l : List α) (hn : 1 ≤ n) :
    (lastN n l).getLast? = l.getLast? := by
  unfold lastN
  rw [List.getLast?_drop]
  split
  · have h0 : l = [] := by
      cases l with
      | nil => rfl
      | cons x xs =>
        simp only [List.length_cons] at *
        omega
    rw [h0]
    rfl
  · rfl

/-- After a fault-free run the last entry of the listing is the file of the
last capture, provided at least one entry is retained. -/
theorem ticks_run_last (s t : State) (es : List TickEnv) (k : Nat) (e : TickEnv)
    (hN : 1 ≤ s.c.MaxRecords)
    (hrec : -2 ^ 63 ≤ s.c.records ∧ s.c.records + es.length < 2 ^ 63)
    (hclean : ∀ e ∈ es, e.check = true → Clean e)
    (hwidth : ∀ t ∈ stamps es, 10 ^ k ≤ t ∧ t < 10 ^ (k + 1))
    (hincr : (stamps es).Pairwise (fun a b => a < b))
    (hold : ∀ d ∈ s.fs, ∀ t ∈ stamps es, nameLt d.name (fname t) = true)
    (ht : ticks s es = .ok t) (he : (es.filter captures).getLast? = some e) :
    t.fs.getLast? = some ⟨fname e.capture.now, e.capture.written⟩ := by
  obtain ⟨t1, ht1, hsw, hA, hB⟩ := ticks_run s es k (by omega) hrec hclean hwidth hincr hold
  rw [ht] at ht1
  simp only [Res.ok.injEq] at ht1
  subst ht1
  have hc : (captured es).getLast? = some ⟨fname e.capture.now, e.capture.written⟩ := by
    unfold captured
    rw [List.getLast?_map, he]
    rfl
  have hne : captured es ≠ [] := by
    intro h0
    rw [h0] at hc
    simp at hc
  have hall : (s.fs ++ captured es).getLast? = some ⟨fname e.capture.now, e.capture.written⟩ := by
    rw [List.getLast?_append_of_ne_nil _ hne, hc]
  rcases Nat.eq_or_lt_of_le hsw with h | h
  · rw [hA h.symm, hall]
  · rw [hB h, getLast_lastN _ _ (by omega), hall]

/-! ## A `Stop` made while a tick body runs -/

theorem loop_tickWithStop (s : State) (e : TickEnv) (rest : List Event) (hwf : WF s) :
    loop s (.tickWithStop e :: rest) = .panicked := by
  cases hx : s.c.ctx with
  | none => exact loop_ctx_none s _ hx
  | some x =>
    cases ht : tick (Stop s) e with
    | panic => simp [loop, hx, ht]
    | ok s1 =>
      have h1 : loop s (.tickWithStop e :: rest) = loop s1 rest := by simp [loop, hx, ht]
      rw [h1]
      apply loop_ctx_none
      rw [(tick_fields (Stop s) e s1 ht).2.1]
      exact (Stop_idle s hwf).2

/-- From an Idle engine: when `Stop` is called while the body of the first
tick runs, `Config.Start` panics on re-entering `select`, whatever follows. -/
theorem Start_tickWithStop (s : State) (h : Handle) (e : TickEnv) (rest : List Event)
    (hidle : s.c.cancel = none) : Start s none h (.tickWithStop e :: rest) = .panicked := by
  unfold Start
  rw [hidle]
  exact loop_tickWithStop { s with c := { s.c with ctx := some h, cancel := some h } } e rest
    (fun hc => by simp at hc)

/-- The same after any number of ticks during which `Stop` is not called:
with `MaxRecords ≥ 0`, a `Stop` made while a later tick body runs makes
`Config.Start` panic. -/
theorem Start_ticks_tickWithStop (s : State) (h : Handle) (es : List TickEnv) (e : TickEnv)
    (rest : List Event) (hidle : s.c.cancel = none) (hN : 0 ≤ s.c.MaxRecords) :
    Start s none h (es.map Event.tick ++ .tickWithStop e :: rest) = .panicked := by
  have hgen : ∀ (es : List TickEnv) (x : State), WF x → 0 ≤ x.c.MaxRecords →
      loop x (es.map Event.tick ++ .tickWithStop e :: rest) = .panicked := by
    intro es
    induction es with
    | nil => intro x hx _; exact loop_tickWithStop x e rest hx
    | cons a es ih =>
      intro x hx hM
      obtain ⟨x1, h1, hM1, hc, hctx⟩ := tick_ok x a hM
      simp only [List.map_cons, List.cons_append]
      rw [loop_tick x x1 a _ h1]
      exact ih x1 (by unfold WF; rw [hc, hctx]; exact hx) (by rw [hM1]; exact hM)
  unfold Start
  rw [hidle]
  exact hgen es { s with c := { s.c with ctx := some h, cancel := some h } }
    (fun hc => by simp at hc) hN

/-- Cancellation seen while the loop waits in `select`: an engine started
from Idle with `MaxRecords ≥ 0` goes through any number of ticks during which
`Stop` is not called; when the caller's context is then cancelled, or `Stop`
is called while the loop waits, `Config.Start` returns nil, and on return the
cancellation handle and the context are cleared. -/
theorem Start_returns_when_waiting (s : State) (h : Handle) (es : List TickEnv) (ev : Event)
    (rest : List Event) (hidle : s.c.cancel = none) (hN : 0 ≤ s.c.MaxRecords)
    (hev : ev = .callerDone ∨ ev = .stopped) :
    ∃ s1, Start s none h (es.map Event.tick ++ ev :: rest) = .returned none s1 ∧
      s1.c.cancel = none ∧ s1.c.ctx = none := by
  unfold Start
  rw [hidle]
  exact loop_ticks_cancel ev rest hev es
    { s with c := { s.c with ctx := some h, cancel := some h } }
    (fun hc => by simp at hc) (by simp) hN

/-- The limit `main.go` passes to `MemoryLimit` is `1 * 1024 * 1024`; with a
heap of 3 MiB the check is true, while under a limit of 5 MB it would be
false. -/
theorem MemoryLimit_main :
    MemoryLimit (1 * 1024 * 1024) 3145728 = true ∧
    MemoryLimit (5 * 1024 * 1024) 3145728 = false := by
  decide

/-! ## The claims -/

/-- C1, as amended: for `MaxRecords = N ≥ 0` and a listing of `n` entries that
`os.ReadDir` returns, `cleanup` panics in no case and returns no error; if
`n ≤ N` it deletes nothing; if `n > N` it attempts, in order, the removal of
exactly the oldest `n - N` entries, passing over a removal that fails; when
each of these removals succeeds, exactly those entries are deleted and the
`N` newest entries, in order, survive. -/
theorem cleanup_retains (c : Config) (fs : FS) (rm : String → Bool) (hN : 0 ≤ c.MaxRecords) :
    (∃ fs1, cleanup c fs none rm = .ok (none, fs1)) ∧
    ((fs.length : Int) ≤ c.MaxRecords → cleanup c fs none rm = .ok (none, fs)) ∧
    (c.MaxRecords < fs.length → cleanup c fs none rm
      = .ok (none, removeEach rm (fs.take (fs.length - c.MaxRecords.toNat)) fs)) ∧
    (c.MaxRecords < fs.length →
      (∀ d ∈ fs.take (fs.length - c.MaxRecords.toNat), rm d.name = false) →
      cleanup c fs none rm = .ok (none, fs.drop (fs.length - c.MaxRecords.toNat)) ∧
      ((fs.drop (fs.length - c.MaxRecords.toNat)).length : Int) = c.MaxRecords) := by
  have hgen : cleanup c fs none rm = .ok (none,
      if (fs.length : Int) < c.MaxRecords then fs
      else removeEach rm (fs.take (fs.length - c.MaxRecords.toNat)) fs) := by
    unfold cleanup
    by_cases h1 : (fs.length : Int) < c.MaxRecords
    · simp [h1]
    · have h2 : ¬ ((fs.length : Int) - c.MaxRecords < 0 ∨
          (fs.length : Int) < (fs.length : Int) - c.MaxRecords) := by omega
      have hk : ((fs.length : Int) - c.MaxRecords).toNat = fs.length - c.MaxRecords.toNat := by
        omega
      simp only [h1, if_false]
      rw [if_neg h2, hk]
  refine ⟨⟨_, hgen⟩, ?_, ?_, ?_⟩
  · intro hle
    rw [hgen]
    by_cases h1 : (fs.length : Int) < c.MaxRecords
    · rw [if_pos h1]
    · rw [if_neg h1]
      have h0 : fs.length - c.MaxRecords.toNat = 0 := by omega
      rw [h0]
      rfl
  · intro hlt
    have h1 : ¬ (fs.length : Int) < c.MaxRecords := by omega
    rw [hgen, if_neg h1]
  · intro hlt hrm
    have h1 : ¬ (fs.length : Int) < c.MaxRecords := by omega
    rw [hgen, if_neg h1]
    have := removeEach_take rm (fs.take (fs.length - c.MaxRecords.toNat))
      (fs.drop (fs.length - c.MaxRecords.toNat)) hrm
    rw [List.take_append_drop] at this
    rw [this, List.length_drop]
    exact ⟨rfl, by omega⟩

/-- Witness of C1: with `MaxRecords = 1` and two entries whose removal
succeeds, the older one is deleted and the newer one survives. -/
theorem cleanup_retains_witness :
    cleanup (newConfig 1) [⟨"heap_1.pprof", [1]⟩, ⟨"heap_2.pprof", [2]⟩] none (fun _ => false)
      = .ok (none, [⟨"heap_2.pprof", [2]⟩]) :=
  ((cleanup_retains (newConfig 1) [⟨"heap_1.pprof", [1]⟩, ⟨"heap_2.pprof", [2]⟩]
    (fun _ => false) (by decide)).2.2.2 (by decide) (fun _ _ => rfl)).1

/-- Counterexample to C1 as stated: with `MaxRecords = 1` and a listing of
two entries, when `os.Remove` of the oldest entry fails `cleanup` returns nil
and both entries survive, not just the newest. -/
theorem cleanup_remove_failure :
    (0 : Int) ≤ (newConfig 1).MaxRecords ∧
    cleanup (newConfig 1) [⟨"heap_1.pprof", [1]⟩, ⟨"heap_2.pprof", [2]⟩] none (fun _ => true)
      = .ok (none, [⟨"heap_1.pprof", [1]⟩, ⟨"heap_2.pprof", [2]⟩]) ∧
    cleanup (newConfig 1) [⟨"heap_1.pprof", [1]⟩, ⟨"heap_2.pprof", [2]⟩] none (fun _ => true)
      ≠ .ok (none, [⟨"heap_2.pprof", [2]⟩]) := by
  decide

/-- C2, as amended: let `MaxRecords = N ≥ 0`, and let a running engine go
through any sequence of ticks on which every capture either fails at
`os.Create` or succeeds, every `os.ReadDir` and `os.Remove` of a sweep
succeeds, the clock readings of the captures are positive, increase strictly
and have the same number of decimal digits, the names already in the directory sort before
the new ones, and the `records` counter does not overflow.  Then no tick
panics and the loop of `Config.Start` goes on from the state `t` reached;
once a sweep has run the directory holds at most `N` entries, and they are
exactly the last `N` (all, if fewer) of the earlier entries followed by the
captured files in capture order; before the first sweep nothing has been
deleted. -/
theorem retention_bounded (s : State) (es : List TickEnv) (k : Nat)
    (hN : 0 ≤ s.c.MaxRecords)
    (hrec : -2 ^ 63 ≤ s.c.records ∧ s.c.records + es.length < 2 ^ 63)
    (hclean : ∀ e ∈ es, e.check = true → Clean e)
    (hwidth : ∀ t ∈ stamps es, 10 ^ k ≤ t ∧ t < 10 ^ (k + 1))
    (hincr : (stamps es).Pairwise (fun a b => a < b))
    (hold : ∀ d ∈ s.fs, ∀ t ∈ stamps es, nameLt d.name (fname t) = true) :
    ∃ t, ticks s es = .ok t ∧
      (∀ rest, loop s (es.map Event.tick ++ rest) = loop t rest) ∧
      (s.sweeps < t.sweeps →
        (t.fs.length : Int) ≤ s.c.MaxRecords ∧
        t.fs = lastN s.c.MaxRecords.toNat (s.fs ++ captured es)) ∧
      (t.sweeps = s.sweeps → t.fs = s.fs ++ captured es) := by
  obtain ⟨t, ht, _, hA, hB⟩ := ticks_run s es k hN hrec hclean hwidth hincr hold
  refine ⟨t, ht, fun rest => loop_of_ticks rest es s t ht, ?_, hA⟩
  intro h
  have h2 := hB h
  refine ⟨?_, h2⟩
  have h3 := lastN_length_le s.c.MaxRecords.toNat (s.fs ++ captured es)
  rw [← h2] at h3
  omega

/-- Witness of C2: `MaxRecords = 3`, an empty directory, and the check true
on ticks 1 to 5 with every capture succeeding: three files remain, those of
captures 3, 4 and 5. -/
theorem retention_bounded_witness :
    ticks (newState 3)
      [goodTick 1700000000000000001 [1], goodTick 1700000000000000002 [2],
       goodTick 1700000000000000003 [3], goodTick 1700000000000000004 [4],
       goodTick 1700000000000000005 [5]]
    = .ok { c := { newConfig 3 with records := 5 },
            fs := [⟨"heap_1700000000000000003.pprof", [3]⟩,
                   ⟨"heap_1700000000000000004.pprof", [4]⟩,
                   ⟨"heap_1700000000000000005.pprof", [5]⟩],
            log := [], cancelled := [], sweeps := 2 } ∧
    ∃ t, ticks (newState 3)
      [goodTick 1700000000000000001 [1], goodTick 1700000000000000002 [2],
       goodTick 1700000000000000003 [3], goodTick 1700000000000000004 [4],
       goodTick 1700000000000000005 [5]] = .ok t ∧
      (∀ rest, loop (newState 3)
        ([goodTick 1700000000000000001 [1], goodTick 1700000000000000002 [2],
          goodTick 1700000000000000003 [3], goodTick 1700000000000000004 [4],
          goodTick 1700000000000000005 [5]].map Event.tick ++ rest) = loop t rest) ∧
      (0 < t.sweeps → (t.fs.length : Int) ≤ 3 ∧
        t.fs = [⟨"heap_1700000000000000003.pprof", [3]⟩,
                ⟨"heap_1700000000000000004.pprof", [4]⟩,
                ⟨"heap_1700000000000000005.pprof", [5]⟩]) ∧
      (t.sweeps = 0 → t.fs = captured
        [goodTick 1700000000000000001 [1], goodTick 1700000000000000002 [2],
         goodTick 1700000000000000003 [3], goodTick 1700000000000000004 [4],
         goodTick 1700000000000000005 [5]]) :=
  ⟨by decide,
   retention_bounded (newState 3)
    [goodTick 1700000000000000001 [1], goodTick 1700000000000000002 [2],
     goodTick 1700000000000000003 [3], goodTick 1700000000000000004 [4],
     goodTick 1700000000000000005 [5]] 18 (by decide) (by decide)
    (by
      intro e he _
      simp only [List.mem_cons, List.mem_singleton, List.not_mem_nil, or_false] at he
      rcases he with h | h | h | h | h <;> subst h <;> exact ⟨fun _ => rfl, rfl, fun _ => rfl⟩)
    (by decide) (by decide) (by intro d hd; cases hd)⟩

/-- Counterexample to C2 as stated, with `MaxRecords = 1` on an empty
directory.  (a) Captures at ticks 1 and 2 succeed and the sweep of tick 2
leaves one file; on tick 3 `os.Create` succeeds and the profile write fails:
the file stays, no sweep runs, and two files remain.  (b) The sweep of tick 2
fails at `os.ReadDir`: two files remain.  (c) In the sweep of tick 2
`os.Remove` fails: two files remain.  (d) Nothing fails, but the captures are
made at clock readings 9 and 10: the sweep deletes `heap_10.pprof`, the
newer one, and the older `heap_9.pprof` survives. -/
theorem retention_not_bounded :
    (∃ t, ticks (newState 1)
        [goodTick 1700000000000000001 [1], goodTick 1700000000000000002 [2],
         writeFailTick 1700000000000000003] = .ok t ∧
      0 < t.sweeps ∧ ¬ ((t.fs.length : Int) ≤ (newState 1).c.MaxRecords)) ∧
    (∃ t, ticks (newState 1)
        [goodTick 1700000000000000001 [1], listFailTick 1700000000000000002 [2]] = .ok t ∧
      0 < t.sweeps ∧ ¬ ((t.fs.length : Int) ≤ (newState 1).c.MaxRecords)) ∧
    (∃ t, ticks (newState 1)
        [goodTick 1700000000000000001 [1], removeFailTick 1700000000000000002 [2]] = .ok t ∧
      0 < t.sweeps ∧ ¬ ((t.fs.length : Int) ≤ (newState 1).c.MaxRecords)) ∧
    (∃ t, ticks (newState 1) [goodTick 9 [1], goodTick 10 [2]] = .ok t ∧
      0 < t.sweeps ∧ t.fs = [⟨"heap_9.pprof", [1]⟩] ∧
      t.fs ≠ lastN 1 (captured [goodTick 9 [1], goodTick 10 [2]])) := by
  refine ⟨⟨_, rfl, ?_, ?_⟩, ⟨_, rfl, ?_, ?_⟩, ⟨_, rfl, ?_, ?_⟩, ⟨_, rfl, ?_, ?_, ?_⟩⟩ <;> decide

/-- C3, as amended: for an Idle engine whose directory can be created, the
Idle-to-Running transition of `Config.Start` sets the context and the
cancellation handle and leaves the `records` counter as it was; the loop
begins with `records = 0` only if the counter was 0 before. -/
theorem Start_keeps_records (s : State) (h : Handle) (hidle : s.c.cancel = none) :
    ∃ s1, Start s none h [] = .running s1 ∧ s1.c.records = s.c.records ∧
      s1.c.cancel = some h ∧ s1.c.ctx = some h := by
  unfold Start
  rw [hidle]
  exact ⟨_, rfl, rfl, rfl, rfl⟩

/-- Witness of C3: a fresh engine starts with `records = 0`. -/
theorem Start_keeps_records_witness :
    ∃ s1, Start (newState 3) none 1 [] = .running s1 ∧ s1.c.records = (newState 3).c.records ∧
      s1.c.cancel = some 1 ∧ s1.c.ctx = some 1 :=
  Start_keeps_records (newState 3) 1 (by decide)

/-- Counterexample to C3 as stated: a fresh engine is started, captures on
two ticks and is cancelled; `Start` returns and the engine is Idle with
`records = 2`.  Started again, it is Running before its first tick with
`records = 2`, not 0. -/
theorem Start_does_not_reset_records :
    ∃ s1 s2,
      Start (newState 3) none 1
        [.tick (goodTick 1700000000000000001 [1]), .tick (goodTick 1700000000000000002 [2]),
         .callerDone] = .returned none s1 ∧
      s1.c.cancel = none ∧
      Start s1 none 2 [] = .running s2 ∧
      s2.c.records = 2 ∧ s2.c.records ≠ 0 := by
  refine ⟨_, _, rfl, ?_, rfl, ?_, ?_⟩ <;> decide

/-- C4: on a tick of a Running engine on which the check is true and
`writeProfile` fails with `err`, the tick does not panic, `err` is handed to
`ErrorLog` exactly once if `ErrorLog` is set and dropped otherwise, the engine
fields (`records` among them) are unchanged, no sweep is run (`cleanup` is not
invoked and the directory is as `writeProfile` left it), the engine is still
Running and the loop goes on with the next event.  Likewise, when the capture
succeeds and the sweep then fails with `err2`, the error is reported in the
same way, the engine is still Running and the loop goes on. -/
theorem capture_failure_isolated (s : State) (e : TickEnv) (hrun : s.c.cancel ≠ none)
    (hchk : e.check = true) :
    (∀ err fs1, writeProfile s.fs e.capture = (some err, fs1) →
      ∃ s1, tick s e = .ok s1 ∧
        s1.log = (if s.c.ErrorLog then s.log ++ [err] else s.log) ∧
        s1.c = s.c ∧ s1.sweeps = s.sweeps ∧ s1.fs = fs1 ∧ s1.c.cancel ≠ none ∧
        ∀ rest, loop s (.tick e :: rest) = loop s1 rest) ∧
    (∀ fs1 err2 fs2, writeProfile s.fs e.capture = (none, fs1) →
      wrap64 (s.c.records + 1) > s.c.MaxRecords →
      cleanup { s.c with records := wrap64 (s.c.records + 1) } fs1 e.readDirErr e.removeFails
        = .ok (some err2, fs2) →
      ∃ s1, tick s e = .ok s1 ∧
        s1.log = (if s.c.ErrorLog then s.log ++ [err2] else s.log) ∧
        s1.c.cancel ≠ none ∧
        ∀ rest, loop s (.tick e :: rest) = loop s1 rest) := by
  constructor
  · intro err fs1 hw
    have ht : tick s e = .ok (report { s with fs := fs1 } err) := by
      unfold tick
      rw [if_pos hchk, hw]
    refine ⟨_, ht, ?_, ?_, ?_, ?_, ?_, ?_⟩
    · unfold report
      split <;> rfl
    · rw [report_c]
    · rw [report_sweeps]
    · rw [report_fs]
    · rw [report_c]; exact hrun
    · intro rest
      exact loop_tick s _ e rest ht
  · intro fs1 err2 fs2 hw hr hcl
    have ht : tick s e = .ok (report { s with
        c := { s.c with records := wrap64 (s.c.records + 1) },
        fs := fs2, sweeps := s.sweeps + 1 } err2) := by
      unfold tick
      rw [if_pos hchk, hw]
      simp only
      rw [if_pos hr, hcl]
    refine ⟨_, ht, ?_, ?_, ?_⟩
    · unfold report
      split <;> rfl
    · rw [report_c]; exact hrun
    · intro rest
      exact loop_tick s _ e rest ht

/-- Witness of C4: a Running engine with `ErrorLog` set and `records = 0`,
on a tick whose `os.Create` fails, and on a tick whose capture succeeds while
`os.ReadDir` fails in the sweep. -/
theorem capture_failure_isolated_witness :
    (∃ s1, tick { newState 3 with c := { newConfig 3 with ctx := some 1, cancel := some 1 } }
        { check := true,
          capture := { now := 1700000000000000001, createErr := some "permission denied",
                       written := [], writeErr := none },
          readDirErr := none, removeFails := fun _ => false } = .ok s1 ∧
      s1.log = ["permission denied"] ∧ s1.c.records = 0 ∧ s1.sweeps = 0 ∧ s1.fs = [] ∧
      s1.c.cancel ≠ none) ∧
    (∃ s1, tick { newState 0 with c := { newConfig 0 with ctx := some 1, cancel := some 1 } }
        (listFailTick 1700000000000000001 [1]) = .ok s1 ∧
      s1.log = ["too many open files"] ∧ s1.c.cancel ≠ none) := by
  constructor
  · obtain ⟨s1, h1, h2, h3, h4, h5, h6, _⟩ :=
      (capture_failure_isolated
        { newState 3 with c := { newConfig 3 with ctx := some 1, cancel := some 1 } }
        { check := true,
          capture := { now := 1700000000000000001, createErr := some "permission denied",
                       written := [], writeErr := none },
          readDirErr := none, removeFails := fun _ => false } (by decide) rfl).1
        "permission denied" [] rfl
    exact ⟨s1, h1, h2, by rw [h3]; rfl, h4, h5, h6⟩
  · obtain ⟨s1, h1, h2, h3, _⟩ :=
      (capture_failure_isolated
        { newState 0 with c := { newConfig 0 with ctx := some 1, cancel := some 1 } }
        (listFailTick 1700000000000000001 [1]) (by decide) rfl).2
        [⟨"heap_1700000000000000001.pprof", [1]⟩] "too many open files"
        [⟨"heap_1700000000000000001.pprof", [1]⟩] (by decide) (by decide) (by decide)
    exact ⟨s1, h1, h2, h3⟩

/-- C5: on an engine that is already Running (cancellation handle set),
`Config.Start` returns nil at once, whatever the environment offers, and
leaves the whole state unchanged; no second loop is started. -/
theorem Start_idempotent (s : State) (mk : Option Err) (h : Handle) (evs : List Event)
    (hrun : s.c.cancel ≠ none) : Start s mk h evs = .returned none s := by
  unfold Start
  cases hc : s.c.cancel with
  | none => exact absurd hc hrun
  | some x => rfl

/-- Witness of C5: a first `Start` leaves the engine Running in its loop; a
second `Start` right after it returns nil and changes nothing. -/
theorem Start_idempotent_witness :
    Start (newState 3) none 1 []
      = .running { newState 3 with c := { newConfig 3 with ctx := some 1, cancel := some 1 } } ∧
    Start { newState 3 with c := { newConfig 3 with ctx := some 1, cancel := some 1 } } none 2
        [.tick (goodTick 1700000000000000001 [1])]
      = .returned none
          { newState 3 with c := { newConfig 3 with ctx := some 1, cancel := some 1 } } :=
  ⟨by decide,
   Start_idempotent
    { newState 3 with c := { newConfig 3 with ctx := some 1, cancel := some 1 } } none 2
    [.tick (goodTick 1700000000000000001 [1])] (by decide)⟩

/-- C6: `Config.Stop` is total and returns no error; on every engine state
whose lifecycle fields are set together (`WF`, which holds of a fresh engine
and is kept by `Start` and `Stop`) it leaves the engine Idle, cancellation
handle and context both cleared; on an Idle engine it changes nothing; and
`Stop` after `Stop` yields the same state as one `Stop`. -/
theorem Stop_idempotent (s : State) (hwf : WF s) :
    (Stop s).c.cancel = none ∧ (Stop s).c.ctx = none ∧
    (s.c.cancel = none → Stop s = s) ∧ Stop (Stop s) = Stop s := by
  have h := Stop_idle s hwf
  exact ⟨h.1, h.2, Stop_of_idle s, Stop_of_idle (Stop s) h.1⟩

/-- Witness of C6: `Stop` on a Running engine. -/
theorem Stop_idempotent_witness :
    (Stop { newState 3 with c := { newConfig 3 with ctx := some 1, cancel := some 1 } }).c.cancel
      = none ∧
    (Stop { newState 3 with c := { newConfig 3 with ctx := some 1, cancel := some 1 } }).c.ctx
      = none ∧
    Stop (Stop { newState 3 with c := { newConfig 3 with ctx := some 1, cancel := some 1 } })
      = Stop { newState 3 with c := { newConfig 3 with ctx := some 1, cancel := some 1 } } :=
  have h := Stop_idempotent
    { newState 3 with c := { newConfig 3 with ctx := some 1, cancel := some 1 } }
    (fun hc => absurd hc (by decide))
  ⟨h.1, h.2.1, h.2.2.2⟩

/-- C7, at a failing input: a fresh engine with `MaxRecords = 3` is started;
on its first tick `c.Stop()` is called while the body runs (here by a `Check`
callback that then returns false).  `Stop` clears `c.ctx`, and on re-entering
`select` the call `c.ctx.Done()` panics: `Config.Start` does not return nil,
not even with the caller's context cancelled next.  By contrast, when `Stop`
is called while the loop waits in `select` after the same tick, `Start`
returns nil and the engine is Idle. -/
theorem Start_panics_after_Stop_in_tick :
    Start (newState 3) none 1 [.tickWithStop quietTick, .callerDone] = .panicked ∧
    Start (newState 3) none 1 [.tick quietTick, .stopped]
      = .returned none { newState 3 with cancelled := [1] } := by
  decide

/-- C8: on an Idle engine, when `os.MkdirAll` fails with `err`,
`Config.Start` returns `err`, runs no loop iteration whatever events are
offered, and leaves the whole state unchanged: no handle is allocated and
`records` is untouched. -/
theorem Start_mkdir_failure (s : State) (err : Err) (h : Handle) (evs : List Event)
    (hidle : s.c.cancel = none) : Start s (some err) h evs = .returned (some err) s := by
  unfold Start
  rw [hidle]
  rfl

/-- Witness of C8: a fresh engine whose directory cannot be created. -/
theorem Start_mkdir_failure_witness :
    Start (newState 3) (some "mkdir ./profiles: permission denied") 1
        [.tick (goodTick 1700000000000000001 [1])]
      = .returned (some "mkdir ./profiles: permission denied") (newState 3) :=
  Start_mkdir_failure (newState 3) "mkdir ./profiles: permission denied" 1
    [.tick (goodTick 1700000000000000001 [1])] (by decide)

/-- C9, as amended: for two capture timestamps `0 ≤ t1 < t2` that print
with the same number of decimal digits (as all `int64` Unix-nanosecond
readings from `10 ^ 18` on do), the file name minted for `t1` is strictly
smaller in lexical order than the one minted for `t2`. -/
theorem fname_lt_of_equal_width (t1 t2 : Int) (h0 : 0 ≤ t1) (h : t1 < t2)
    (hw : (toString t1).length = (toString t2).length) :
    fname t1 < fname t2 ∧ nameLt (fname t1) (fname t2) = true := by
  have hlt := fname_nameLt_int t1 t2 h0 h hw
  exact ⟨(nameLt_iff _ _).mp hlt, hlt⟩

/-- Witness of C9: two consecutive nanosecond readings of a present-day clock. -/
theorem fname_lt_of_equal_width_witness :
    fname 1700000000000000000 < fname 1700000000000000001 ∧
      nameLt (fname 1700000000000000000) (fname 1700000000000000001) = true :=
  fname_lt_of_equal_width 1700000000000000000 1700000000000000001 (by decide) (by decide)
    (by decide)

/-- Counterexample to C9 as stated: `9 < 10`, but `heap_9.pprof` is not
smaller than `heap_10.pprof` in lexical order; it is greater. -/
theorem fname_not_monotone :
    (9 : Int) < 10 ∧ fname 9 = "heap_9.pprof" ∧ fname 10 = "heap_10.pprof" ∧
    ¬ (fname 9 < fname 10) ∧ fname 10 < fname 9 := by
  refine ⟨by decide, by decide, by decide, ?_, ?_⟩
  · rw [← nameLt_iff]
    decide
  · rw [← nameLt_iff]
    decide

/-- C10, as amended: in the `/latest` handler, if the directory cannot be
read the response is 500; if the listing is empty it is 404; if the last
entry of the name-sorted listing cannot be opened it is 500; otherwise the
response is 200, its body is the bytes of the last entry of the name-sorted
listing, and the Content-Disposition header names that entry.  That entry is
the most recently captured snapshot under the equal-width condition: in a
listing in name order, if it is the snapshot of a timestamp `t ≥ 0`, then no
snapshot in the store whose timestamp `u ≥ 0` prints with as many digits as
`t` was captured later than `t`; and when the store is the one a fault-free
run of ticks leaves (captures at positive, strictly increasing timestamps of
equal printed width, earlier names sorting before the new ones,
`MaxRecords ≥ 1`), the response carries the bytes and the name of the last
capture of the run. -/
theorem Handler_latest_spec (fs : FS) (rd op : Option Err) :
    (rd ≠ none → (Handler_latest fs rd op).status = 500) ∧
    (rd = none → fs = [] → (Handler_latest fs rd op).status = 404) ∧
    (rd = none → fs ≠ [] → op ≠ none → (Handler_latest fs rd op).status = 500) ∧
    (rd = none → op = none → ∀ prof, fs.getLast? = some prof →
      (Handler_latest fs rd op).status = 200 ∧
      (Handler_latest fs rd op).body = .raw prof.data ∧
      ("Content-Disposition", "attachment; filename=\"" ++ prof.name ++ "\"")
        ∈ (Handler_latest fs rd op).headers) ∧
    (Sorted fs → ∀ (prof : DirEntry) (t : Int), fs.getLast? = some prof →
      prof.name = fname t → 0 ≤ t →
      ∀ d ∈ fs, ∀ u : Int, d.name = fname u → 0 ≤ u →
        (toString u).length = (toString t).length → u ≤ t) ∧
    (rd = none → op = none →
      ∀ (s t : State) (es : List TickEnv) (k : Nat) (e : TickEnv),
        1 ≤ s.c.MaxRecords →
        (-2 ^ 63 ≤ s.c.records ∧ s.c.records + es.length < 2 ^ 63) →
        (∀ x ∈ es, x.check = true → Clean x) →
        (∀ u ∈ stamps es, 10 ^ k ≤ u ∧ u < 10 ^ (k + 1)) →
        (stamps es).Pairwise (fun a b => a < b) →
        (∀ d ∈ s.fs, ∀ u ∈ stamps es, nameLt d.name (fname u) = true) →
        ticks s es = .ok t → t.fs = fs →
        (es.filter captures).getLast? = some e →
        (Handler_latest fs rd op).status = 200 ∧
        (Handler_latest fs rd op).body = .raw e.capture.written ∧
        ("Content-Disposition", "attachment; filename=\"" ++ fname e.capture.now ++ "\"")
          ∈ (Handler_latest fs rd op).headers) := by
  have hserve : rd = none → op = none → ∀ prof, fs.getLast? = some prof →
      (Handler_latest fs rd op).status = 200 ∧
      (Handler_latest fs rd op).body = .raw prof.data ∧
      ("Content-Disposition", "attachment; filename=\"" ++ prof.name ++ "\"")
        ∈ (Handler_latest fs rd op).headers := by
    intro h1 h2 prof hp
    subst h1 h2
    rw [← lastEntry_eq] at hp
    simp [Handler_latest, hp]
  refine ⟨?_, ?_, ?_, hserve, ?_, ?_⟩
  · intro h
    cases rd with
    | none => exact absurd rfl h
    | some err => rfl
  · intro h1 h2
    subst h1 h2
    rfl
  · intro h1 h2 h3
    subst h1
    have hl : lastEntry fs ≠ none := by
      rw [lastEntry_eq]
      simpa using h2
    cases hp : lastEntry fs with
    | none => exact absurd hp hl
    | some prof =>
      cases op with
      | none => exact absurd rfl h3
      | some err => simp [Handler_latest, hp, httpError]
  · intro hs prof t hp hpt ht0 d hd u hdu hu0 hw
    by_contra hlt
    have hn : nameLt prof.name d.name = true := by
      rw [hpt, hdu]
      exact fname_nameLt_int t u ht0 (by omega) hw.symm
    rcases pairwise_getLast _ fs prof hs hp d hd with h | h
    · rw [h, nameLt_irrefl] at hn
      cases hn
    · rw [nameLt_asymm _ _ h] at hn
      cases hn
  · intro h1 h2 s t es k e hN hrec hclean hwidth hincr hold ht hfs he
    have hl := ticks_run_last s t es k e hN hrec hclean hwidth hincr hold ht he
    rw [hfs] at hl
    exact hserve h1 h2 _ hl

/-- Witness of C10: a fresh engine with `MaxRecords = 3` captures on five
ticks and leaves the files of captures 3, 4 and 5; the `/latest` handler,
reading the directory and opening the file, answers 200 with the bytes of
capture 5 and names its file; and the snapshot of capture 4, which is in the
listing, was not captured later than the one served. -/
theorem Handler_latest_spec_witness :
    ticks (newState 3)
        [goodTick 1700000000000000001 [1], goodTick 1700000000000000002 [2],
         goodTick 1700000000000000003 [3], goodTick 1700000000000000004 [4],
         goodTick 1700000000000000005 [5]]
      = .ok { c := { newConfig 3 with records := 5 },
              fs := [⟨"heap_1700000000000000003.pprof", [3]⟩,
                     ⟨"heap_1700000000000000004.pprof", [4]⟩,
                     ⟨"heap_1700000000000000005.pprof", [5]⟩],
              log := [], cancelled := [], sweeps := 2 } ∧
    ((Handler_latest [⟨"heap_1700000000000000003.pprof", [3]⟩,
          ⟨"heap_1700000000000000004.pprof", [4]⟩,
          ⟨"heap_1700000000000000005.pprof", [5]⟩] none none).status = 200 ∧
      (Handler_latest [⟨"heap_1700000000000000003.pprof", [3]⟩,
          ⟨"heap_1700000000000000004.pprof", [4]⟩,
          ⟨"heap_1700000000000000005.pprof", [5]⟩] none none).body = .raw [5] ∧
      ("Content-Disposition", "attachment; filename=\"heap_1700000000000000005.pprof\"")
        ∈ (Handler_latest [⟨"heap_1700000000000000003.pprof", [3]⟩,
          ⟨"heap_1700000000000000004.pprof", [4]⟩,
          ⟨"heap_1700000000000000005.pprof", [5]⟩] none none).headers) ∧
    (1700000000000000004 : Int) ≤ 1700000000000000005 :=
  ⟨by decide,
   (Handler_latest_spec [⟨"heap_1700000000000000003.pprof", [3]⟩,
        ⟨"heap_1700000000000000004.pprof", [4]⟩,
        ⟨"heap_1700000000000000005.pprof", [5]⟩] none none).2.2.2.2.2 rfl rfl
      (newState 3)
      { c := { newConfig 3 with records := 5 },
        fs := [⟨"heap_1700000000000000003.pprof", [3]⟩,
               ⟨"heap_1700000000000000004.pprof", [4]⟩,
               ⟨"heap_1700000000000000005.pprof", [5]⟩],
        log := [], cancelled := [], sweeps := 2 }
      [goodTick 1700000000000000001 [1], goodTick 1700000000000000002 [2],
       goodTick 1700000000000000003 [3], goodTick 1700000000000000004 [4],
       goodTick 1700000000000000005 [5]] 18 (goodTick 1700000000000000005 [5])
      (by decide) (by decide)
      (by
        intro e he _
        simp only [List.mem_cons, List.mem_singleton, List.not_mem_nil, or_false] at he
        rcases he with h | h | h | h | h <;> subst h <;>
          exact ⟨fun _ => rfl, rfl, fun _ => rfl⟩)
      (by decide) (by decide) (by intro d hd; cases hd) (by decide) rfl rfl,
   (Handler_latest_spec [⟨"heap_1700000000000000003.pprof", [3]⟩,
        ⟨"heap_1700000000000000004.pprof", [4]⟩,
        ⟨"heap_1700000000000000005.pprof", [5]⟩] none none).2.2.2.2.1
      (by unfold Sorted; decide) ⟨"heap_1700000000000000005.pprof", [5]⟩ 1700000000000000005
      rfl (by decide) (by decide) ⟨"heap_1700000000000000004.pprof", [4]⟩ (by decide)
      1700000000000000004 (by decide) (by decide) (by decide)⟩

/-- Counterexample to C10 as stated.  (a) The directory is read, its listing
is not empty, and `os.Open` of the newest entry fails: the response is 500
with the error text, not the bytes of a snapshot.  (b) Nothing fails, and a
fresh engine captures at clock readings 9 and then 10: the listing is
`heap_10.pprof`, `heap_9.pprof`, and the handler answers with the bytes and
the name of the capture made at 9, while the most recently captured snapshot
is the one made at 10. -/
theorem Handler_latest_refuted :
    (Handler_latest [⟨"heap_1.pprof", [1]⟩, ⟨"heap_2.pprof", [2, 3]⟩] none
        (some "open profiles/heap_2.pprof: permission denied")
      = { status := 500,
          headers := [("X-Content-Type-Options", "nosniff"),
                      ("Content-Type", "text/plain; charset=utf-8")],
          body := .text "open profiles/heap_2.pprof: permission denied\n" } ∧
    (Handler_latest [⟨"heap_1.pprof", [1]⟩, ⟨"heap_2.pprof", [2, 3]⟩] none
        (some "open profiles/heap_2.pprof: permission denied")).body ≠ .raw [2, 3]) ∧
    (ticks (newState 3) [goodTick 9 [1], goodTick 10 [2]]
      = .ok { c := { newConfig 3 with records := 2 },
              fs := [⟨"heap_10.pprof", [2]⟩, ⟨"heap_9.pprof", [1]⟩],
              log := [], cancelled := [], sweeps := 0 } ∧
     (captured [goodTick 9 [1], goodTick 10 [2]]).getLast? = some ⟨"heap_10.pprof", [2]⟩ ∧
     Handler_latest [⟨"heap_10.pprof", [2]⟩, ⟨"heap_9.pprof", [1]⟩] none none
      = { status := 200,
          headers := [("X-Content-Type-Options", "nosniff"),
                      ("Content-Type", "application/octet-stream"),
                      ("Content-Disposition", "attachment; filename=\"heap_9.pprof\"")],
          body := .raw [1] }) := by
  decide

end Autopprof
